import Mathlib

/-!
Verification development for the minio admin control-plane core:
lock-state inspection (`getSystemLockState`, `listLocksInfo`), the admin
peer registry (`makeAdminPeers`), the service-command dispatcher
(`sendServiceCmd`), the quorum lock aggregator (`listPeerLocksInfo`),
and the multipart upload-ID helpers (`isMultipartUpload`,
`isUploadIDExists`, `removeUploadID`).

Timestamps (`time.Time`) and durations (`time.Duration`) are embedded as
`Int` (nanoseconds); `timeNow.Sub(since)` becomes `timeNow - since`.
Go maps traversed by `range` are embedded as association lists, the list
order standing in for one fixed iteration order.
-/

namespace Minio

/-- Lock type (RLock, WLock); the enum values live outside the given
sources, only their identity matters here. -/
inductive LockType where
  | readLock
  | writeLock
deriving DecidableEq, Repr

/-- Status of an operation on a lock: Running/Ready/Blocked. -/
inductive StatusType where
  | runningStatus
  | readyStatus
  | blockedStatus
deriving DecidableEq, Repr

/-- OpsLockState - state information of one operation's lock
(lockinfo-handlers.go). -/
structure OpsLockState where
  OperationID : String
  LockSource : String
  LockType : LockType
  Status : StatusType
  Since : Int
  Duration : Int
deriving DecidableEq, Repr

/-- VolumeLockInfo - lock state info for a volume, path pair
(lockinfo-handlers.go). -/
structure VolumeLockInfo where
  Bucket : String
  Object : String
  LocksOnObject : Int
  LocksAcquiredOnObject : Int
  TotalBlockedLocks : Int
  LockDetailsOnObject : List OpsLockState
deriving DecidableEq, Repr

/-- SystemLockState - lock state of the entire object storage
(lockinfo-handlers.go). -/
structure SystemLockState where
  TotalLocks : Int
  TotalBlockedLocks : Int
  TotalAcquiredLocks : Int
  LocksInfoPerObject : List VolumeLockInfo
deriving DecidableEq, Repr

/-- nsParam - composite key (volume, path) of one lockable resource. -/
structure NsParam where
  volume : String
  path : String
deriving DecidableEq, Repr

/-- The three running counters of the lock table: total, granted,
blocked. -/
structure LockStatCounters where
  total : Int
  granted : Int
  blocked : Int
deriving DecidableEq, Repr

/-- Per-operation record of the lock table (source, type, status and the
time the lock was initially held). -/
structure DebugLockRec where
  lockSource : String
  lType : LockType
  status : StatusType
  since : Int
deriving DecidableEq, Repr

/-- Per-(volume, path) slot of the lock table: its own counters plus a
map from operation ID to that operation's record. -/
structure DebugLockInfoPerVolumePath where
  counters : LockStatCounters
  lockInfo : List (String × DebugLockRec)
deriving DecidableEq, Repr

/-- The global namespace-lock map state read by the inspectors: running
counters plus the per-resource debug lock map. -/
structure NsLockMapState where
  counters : LockStatCounters
  debugLockMap : List (NsParam × DebugLockInfoPerVolumePath)
deriving DecidableEq, Repr

/-- Builds one OpsLockState from an operation ID, its record and the
precomputed elapsed duration, exactly as both inspectors do. -/
def mkOpsLockState (opsID : String) (li : DebugLockRec) (elapsed : Int) : OpsLockState :=
  { OperationID := opsID
    LockSource := li.lockSource
    LockType := li.lType
    Status := li.status
    Since := li.since
    Duration := elapsed }

/-- getSystemLockState - reads the entire state of the locks in the
system (lockinfo-handlers.go lines 66-98). `timeNow` is the single
timestamp sample fetched once at entry. The Go function's error result
is always nil, so the embedding returns the state directly. -/
def getSystemLockState (st : NsLockMapState) (timeNow : Int) : SystemLockState :=
  { TotalLocks := st.counters.total
    TotalBlockedLocks := st.counters.blocked
    TotalAcquiredLocks := st.counters.granted
    LocksInfoPerObject :=
      st.debugLockMap.map fun pd =>
        { Bucket := pd.1.volume
          Object := pd.1.path
          LocksOnObject := pd.2.counters.total
          TotalBlockedLocks := pd.2.counters.blocked
          LocksAcquiredOnObject := pd.2.counters.granted
          LockDetailsOnObject :=
            pd.2.lockInfo.map fun ol =>
              mkOpsLockState ol.1 ol.2 (timeNow - ol.2.since) } }

/-- The inner loop of listLocksInfo over one entry's operation records:
`vol` is the mutable `volLockInfo` variable; records younger than
`relTime` are skipped, each older record is appended to
`vol.LockDetailsOnObject`, and the current value of `vol` is then
appended to the output (lockinfo-handlers.go lines 126-142). -/
def listLocksLoop (timeNow relTime : Int) (vol : VolumeLockInfo) :
    List (String × DebugLockRec) → List VolumeLockInfo
  | [] => []
  | ol :: rest =>
    let elapsed := timeNow - ol.2.since
    if elapsed < relTime then
      listLocksLoop timeNow relTime vol rest
    else
      let vol' := { vol with
        LockDetailsOnObject := vol.LockDetailsOnObject ++ [mkOpsLockState ol.1 ol.2 elapsed] }
      vol' :: listLocksLoop timeNow relTime vol' rest

/-- The `volLockInfo` value listLocksInfo builds for one matching map
entry before walking its operation records. -/
def initVolLockInfo (pd : NsParam × DebugLockInfoPerVolumePath) : VolumeLockInfo :=
  { Bucket := pd.1.volume
    Object := pd.1.path
    LocksOnObject := pd.2.counters.total
    TotalBlockedLocks := pd.2.counters.blocked
    LocksAcquiredOnObject := pd.2.counters.granted
    LockDetailsOnObject := [] }

/-- strings.HasPrefix(s, p): whether the string `s` begins with `p`,
embedded through the character lists. -/
def hasPrefix (s p : String) : Bool :=
  p.toList.isPrefixOf s.toList

/-- listLocksInfo - fetches locks held on bucket, matching prefix, older
than relTime (lockinfo-handlers.go lines 101-145). Entries whose volume
differs from `bucket` or whose path lacks the prefix `pfx` are skipped;
`timeNow` is the single timestamp sample fetched once at entry. -/
def listLocksInfo (st : NsLockMapState) (timeNow : Int) (bucket pfx : String)
    (relTime : Int) : List VolumeLockInfo :=
  st.debugLockMap.flatMap fun pd =>
    if pd.1.volume = bucket ∧ hasPrefix pd.1.path pfx then
      listLocksLoop timeNow relTime (initVolLockInfo pd) pd.2.lockInfo
    else
      []

/-- Credential pair of the server configuration (only the two fields the
registry reads). -/
structure Credential where
  AccessKey : String
  SecretKey : String
deriving DecidableEq, Repr

/-- authConfig - the configuration makeAdminPeers builds for each remote
admin client. -/
structure AuthConfig where
  accessKey : String
  secretKey : String
  serverAddr : String
  secureConn : Bool
  serviceEndpoint : String
  serviceName : String
deriving DecidableEq, Repr

/-- adminCmdRunner - local or remote execution of admin commands; the
remote variant carries the RPC client's configuration. -/
inductive AdminCmdRunner where
  | localAdminClient
  | remoteAdminClient (cfg : AuthConfig)
deriving DecidableEq, Repr

/-- adminPeer - one cluster node: its address and its command runner. -/
structure AdminPeer where
  addr : String
  cmdRunner : AdminCmdRunner
deriving DecidableEq, Repr

/-- The projection of `url.URL` the registry reads: only the host. -/
structure EndpointURL where
  host : String
deriving DecidableEq, Repr

/-- The authConfig makeAdminPeers constructs for a remote host:
credential pair, host, whether the connection is encrypted, and the
admin service endpoint. -/
def makeAuthConfig (cred : Credential) (ssl : Bool) (svcEndpoint host : String) :
    AuthConfig :=
  { accessKey := cred.AccessKey
    secretKey := cred.SecretKey
    serverAddr := host
    secureConn := ssl
    serviceEndpoint := svcEndpoint
    serviceName := "Admin" }

/-- One iteration of makeAdminPeers' loop over the endpoints: skip an
empty host, skip an already-seen host, otherwise append a remote peer
and mark the host seen. The accumulator pairs the peers built so far
with the `seenAddr` set (as a list). -/
def makeAdminPeersStep (cred : Credential) (ssl : Bool) (svcEndpoint : String)
    (acc : List AdminPeer × List String) (ep : EndpointURL) :
    List AdminPeer × List String :=
  if ep.host = "" then acc
  else if ep.host ∈ acc.2 then acc
  else
    (acc.1 ++ [{ addr := ep.host
                 cmdRunner := .remoteAdminClient (makeAuthConfig cred ssl svcEndpoint ep.host) }],
     acc.2 ++ [ep.host])

/-- makeAdminPeers - constructs the collection of adminPeer from the
endpoint list (part_000 lines 101-142): the local peer first, seeded
into `seenAddr`, then one remote peer per distinct unseen non-empty
host. `globalMinioAddr`, the credential, `isSSL()` and the joined
service endpoint are passed in explicitly. -/
def makeAdminPeers (globalMinioAddr : String) (cred : Credential) (ssl : Bool)
    (svcEndpoint : String) (eps : List EndpointURL) : List AdminPeer :=
  (eps.foldl (makeAdminPeersStep cred ssl svcEndpoint)
    ([{ addr := globalMinioAddr, cmdRunner := .localAdminClient }], [globalMinioAddr])).1

/-- serviceSignal values used by the dispatcher: stop and restart. -/
inductive ServiceSignal where
  | serviceStop
  | serviceRestart
deriving DecidableEq, Repr

/-- invokeServiceCmd - invokes Stop or Restart on one peer (part_000
lines 150-158). The peers' Stop/Restart outcomes are abstracted as the
functions `stopErr` and `restartErr` from peer to optional error. -/
def invokeServiceCmd {Err : Type} (stopErr restartErr : AdminPeer → Option Err)
    (cp : AdminPeer) (cmd : ServiceSignal) : Option Err :=
  match cmd with
  | .serviceStop => stopErr cp
  | .serviceRestart => restartErr cp

/-- The `errs` slice sendServiceCmd fills (part_000 lines 162-177):
slot i+1 holds remote peer cps[i+1]'s outcome, slot 0 the local peer's.
Undefined in Go for an empty registry (index panic); the registry is
never empty. -/
def sendServiceCmdErrs {Err : Type} (stopErr restartErr : AdminPeer → Option Err)
    (cps : List AdminPeer) (cmd : ServiceSignal) : List (Option Err) :=
  match cps with
  | [] => []
  | c0 :: remotePeers =>
    invokeServiceCmd stopErr restartErr c0 cmd ::
      remotePeers.map fun p => invokeServiceCmd stopErr restartErr p cmd

/-- sendServiceCmd - invokes Stop/Restart on remote peers then the local
peer; the per-peer errors are collected into `errs` and then dropped,
and nothing is returned (part_000 lines 162-177). -/
def sendServiceCmd {Err : Type} (stopErr restartErr : AdminPeer → Option Err)
    (cps : List AdminPeer) (cmd : ServiceSignal) : Unit :=
  let _errs := sendServiceCmdErrs stopErr restartErr cps cmd
  ()

/-- The `errs` slice of listPeerLocksInfo: per-peer ListLocks error,
position-aligned with the peers. -/
def peerErrs {Err : Type} (outcomes : List (Except Err (List VolumeLockInfo))) :
    List (Option Err) :=
  outcomes.map fun o => match o with | .error e => some e | .ok _ => none

/-- The `allLocks` slice of listPeerLocksInfo: per-peer ListLocks
result, nil (empty) for a peer that errored. -/
def peerLocks {Err : Type} (outcomes : List (Except Err (List VolumeLockInfo))) :
    List (List VolumeLockInfo) :=
  outcomes.map fun o => match o with | .error _ => [] | .ok l => l

/-- Occurrence count of the error value `e` among the per-peer errors. -/
def countErr {Err : Type} [DecidableEq Err] (errs : List (Option Err)) (e : Err) : Nat :=
  (errs.filter fun oe => oe = some e).length

/-- Modelled from the spec: `reduceErrs` is not among the given sources;
per the spec it finds the error value occurring most frequently among
non-nil, non-ignorable errors (none are ignorable here) and returns that
count and error, or a zero count and no error when no peer errored. -/
def reduceErrs {Err : Type} [DecidableEq Err] (errs : List (Option Err)) :
    Nat × Option Err :=
  (errs.filterMap id).foldl
    (fun acc e => if acc.1 < countErr errs e then (countErr errs e, some e) else acc)
    (0, none)

/-- Result type of listPeerLocksInfo's failure cases: a propagated peer
error or the distinguished InsufficientReadQuorum condition. -/
inductive AggError (Err : Type) where
  | peerError (e : Err)
  | insufficientReadQuorum
deriving DecidableEq

/-- One insertion into the `paramLockMap` grouping map, embedded as an
association list keyed by (bucket, object): the lock info is appended to
its key's slot. -/
def insertParamLock (m : List (NsParam × List VolumeLockInfo)) (k : NsParam)
    (v : VolumeLockInfo) : List (NsParam × List VolumeLockInfo) :=
  match m with
  | [] => [(k, [v])]
  | kv :: rest =>
    if kv.1 = k then (kv.1, kv.2 ++ [v]) :: rest else kv :: insertParamLock rest k v

/-- The `paramLockMap` built by listPeerLocksInfo's merge step: every
lock info of every node, grouped by (bucket, object). -/
def groupLockInfos (locks : List VolumeLockInfo) : List (NsParam × List VolumeLockInfo) :=
  locks.foldl (fun m li => insertParamLock m { volume := li.Bucket, path := li.Object } li) []

/-- The flatten of the grouping map into `groupedLockInfos`. -/
def flattenGroups (m : List (NsParam × List VolumeLockInfo)) : List VolumeLockInfo :=
  m.flatMap fun kv => kv.2

/-- listPeerLocksInfo - aggregates lock information from all peers
(part_000 lines 179-225). Each peer's ListLocks outcome (result or
error, position-aligned with the peer list) is the input; the per-peer
errors are reduced, checked against the majority threshold
len(peers)/2 + 1, and on success all lock infos are grouped by
(bucket, object) and flattened. -/
def listPeerLocksInfo {Err : Type} [DecidableEq Err]
    (outcomes : List (Except Err (List VolumeLockInfo))) :
    Except (AggError Err) (List VolumeLockInfo) :=
  let errs := peerErrs outcomes
  let r := reduceErrs errs
  match r.2 with
  | some e =>
    if outcomes.length / 2 + 1 ≤ r.1 then Except.error (AggError.peerError e)
    else Except.error AggError.insufficientReadQuorum
  | none => Except.ok (flattenGroups (groupLockInfos (peerLocks outcomes).flatten))

/-- Modelled from the spec: the path join helper is not among the given
sources; path elements are joined with the slash separator. -/
def pathJoin (elems : List String) : String :=
  String.intercalate "/" elems

/-- Stat outcome of fsStatFile: file-not-found or any other error. -/
inductive StatError where
  | errFileNotFound
  | otherError (msg : String)
deriving DecidableEq, Repr

/-- Name of the uploads ledger file. -/
def uploadsJSONFile : String := "uploads.json"

/-- Name of the per-upload fs metadata file. -/
def fsMetaJSONFile : String := "fs.json"

/-- Name of the minio meta multipart bucket. -/
def minioMetaMultipartBucket : String := ".minio.sys/multipart"

/-- isMultipartUpload - returns whether the prefix is a multipart upload
(fs-v1-multipart-common.go lines 27-38); the filesystem stat is
abstracted as the function `stat`. A file-not-found error returns false;
any other error is logged and also returns false. -/
def isMultipartUpload (stat : String → Option StatError) (fsPath bucket pfx : String) :
    Bool :=
  let uploadsIDPath := pathJoin [fsPath, bucket, pfx, uploadsJSONFile]
  match stat uploadsIDPath with
  | some e => if e = StatError.errFileNotFound then false else false
  | none => true

/-- isUploadIDExists - verifies whether a given uploadID exists and is
valid (fs-v1-multipart-common.go lines 41-52); the filesystem stat is
abstracted as the function `stat`. -/
def isUploadIDExists (stat : String → Option StatError) (fsPath bucket object uploadID : String) :
    Bool :=
  let uploadIDPath := pathJoin [bucket, object, uploadID]
  match stat (pathJoin [fsPath, minioMetaMultipartBucket, uploadIDPath, fsMetaJSONFile]) with
  | some e => if e = StatError.errFileNotFound then false else false
  | none => true

/-- Modelled from the spec: `uploadsV1.RemoveUploadID` is not among the
given sources; per the spec the ledger is a small record list, and the
given upload ID's entry is removed from it. -/
def removeUploadIDFromList : List String → String → List String
  | [], _ => []
  | u :: rest, uploadID =>
    if u = uploadID then rest else u :: removeUploadIDFromList rest uploadID

/-- The file operation removeUploadID performs on the uploads ledger
file after a successful read: delete it, or write the updated list back. -/
inductive LedgerFileOp where
  | deleteFile
  | writeFile (uploads : List String)
deriving DecidableEq, Repr

/-- removeUploadID - removes the uploadID from the locked uploads.json
ledger (fs-v1-multipart-common.go lines 56-78). The read of the ledger
and the outcomes of the delete and write operations are abstracted as
inputs; the result pairs the returned error with the file operation
performed (none when the read failed and the file is untouched). -/
def removeUploadID (readRes : Except StatError (List String)) (uploadID : String)
    (deleteErr writeErr : Option StatError) : Option StatError × Option LedgerFileOp :=
  match readRes with
  | .error e => (some e, none)
  | .ok uploadIDs =>
    let uploadIDs' := removeUploadIDFromList uploadIDs uploadID
    if uploadIDs'.isEmpty then (deleteErr, some LedgerFileOp.deleteFile)
    else (writeErr, some (LedgerFileOp.writeFile uploadIDs'))

/-- The operation records of one lock-map entry that match the age
filter, already rendered as OpsLockState details with the shared
timestamp sample. -/
def matchingOps (timeNow relTime : Int) (pd : NsParam × DebugLockInfoPerVolumePath) :
    List OpsLockState :=
  (pd.2.lockInfo.filter fun ol => relTime ≤ timeNow - ol.2.since).map fun ol =>
    mkOpsLockState ol.1 ol.2 (timeNow - ol.2.since)

/-- The entries one lock-map entry contributes: one per matching
operation record, the i-th carrying the aggregate fields of `base` and
the details of the first i+1 matching records. -/
def emittedEntries (base : VolumeLockInfo) (ops : List OpsLockState) :
    List VolumeLockInfo :=
  (List.range ops.length).map fun i =>
    { base with LockDetailsOnObject := ops.take (i + 1) }

/-- Example operation record held since t=10. -/
def exRec1 : DebugLockRec :=
  { lockSource := "GetObject", lType := .readLock, status := .runningStatus, since := 10 }

/-- Example operation record held since t=20. -/
def exRec2 : DebugLockRec :=
  { lockSource := "PutObject", lType := .writeLock, status := .blockedStatus, since := 20 }

/-- Example lock-table state: one object of bucket "b" with two
operation records. -/
def exLockState : NsLockMapState :=
  { counters := { total := 2, granted := 1, blocked := 1 }
    debugLockMap :=
      [({ volume := "b", path := "obj" },
        { counters := { total := 2, granted := 1, blocked := 1 }
          lockInfo := [("op1", exRec1), ("op2", exRec2)] })] }

/-- Example lock info entry of peer A. -/
def exVolA : VolumeLockInfo :=
  { Bucket := "b", Object := "o1", LocksOnObject := 1, LocksAcquiredOnObject := 1,
    TotalBlockedLocks := 0, LockDetailsOnObject := [] }

/-- Example lock info entry of peer B. -/
def exVolB : VolumeLockInfo :=
  { Bucket := "b", Object := "o2", LocksOnObject := 2, LocksAcquiredOnObject := 1,
    TotalBlockedLocks := 1, LockDetailsOnObject := [] }

/-- Example admin peer used by concrete instantiations. -/
def exPeer : AdminPeer :=
  { addr := "node1:9000", cmdRunner := .localAdminClient }

/-- The VolumeLockInfo getSystemLockState builds for exLockState's one
entry at timestamp 100. -/
def exSysVol : VolumeLockInfo :=
  { Bucket := "b", Object := "obj", LocksOnObject := 2, LocksAcquiredOnObject := 1,
    TotalBlockedLocks := 1,
    LockDetailsOnObject :=
      [mkOpsLockState "op1" exRec1 90, mkOpsLockState "op2" exRec2 80] }

theorem listLocksLoop_eq (t r : Int) :
    ∀ (l : List (String × DebugLockRec)) (vol : VolumeLockInfo),
      listLocksLoop t r vol l =
        (List.range ((l.filter fun ol => r ≤ t - ol.2.since).length)).map fun i =>
          { vol with LockDetailsOnObject :=
              vol.LockDetailsOnObject ++
                (((l.filter fun ol => r ≤ t - ol.2.since).take (i + 1)).map fun ol =>
                  mkOpsLockState ol.1 ol.2 (t - ol.2.since)) }
  | [], vol => by simp [listLocksLoop]
  | ol :: rest, vol => by
    by_cases h : t - ol.2.since < r
    · have hf : ¬ r ≤ t - ol.2.since := not_le.mpr h
      simp only [listLocksLoop, if_pos h]
      rw [List.filter_cons_of_neg (by simpa using hf)]
      exact listLocksLoop_eq t r rest vol
    · have hf : r ≤ t - ol.2.since := not_lt.mp h
      simp only [listLocksLoop, if_neg h]
      rw [List.filter_cons_of_pos (by simpa using hf),
        listLocksLoop_eq t r rest, List.length_cons, List.range_succ_eq_map,
        List.map_cons, List.map_map]
      congr 1
      apply List.map_congr_left
      intro i _
      simp [Function.comp, List.take_succ_cons, List.append_assoc]

theorem listLocksLoop_lastDetails (t r : Int) :
    ∀ (l : List (String × DebugLockRec)) (vol : VolumeLockInfo),
      (listLocksLoop t r vol l).map (fun v => v.LockDetailsOnObject.getLast?) =
        (l.filter fun ol => r ≤ t - ol.2.since).map fun ol =>
          some (mkOpsLockState ol.1 ol.2 (t - ol.2.since))
  | [], vol => by simp [listLocksLoop]
  | ol :: rest, vol => by
    by_cases h : t - ol.2.since < r
    · have hf : ¬ r ≤ t - ol.2.since := not_le.mpr h
      simp only [listLocksLoop, if_pos h]
      rw [List.filter_cons_of_neg (by simpa using hf)]
      exact listLocksLoop_lastDetails t r rest vol
    · have hf : r ≤ t - ol.2.since := not_lt.mp h
      simp only [listLocksLoop, if_neg h]
      rw [List.filter_cons_of_pos (by simpa using hf), List.map_cons, List.map_cons,
        listLocksLoop_lastDetails t r rest]
      congr 1
      simp [List.getLast?_concat]

theorem listLocksInfo_char (st : NsLockMapState) (t : Int) (bucket pfx : String)
    (relTime : Int) :
    listLocksInfo st t bucket pfx relTime =
      st.debugLockMap.flatMap fun pd =>
        if pd.1.volume = bucket ∧ hasPrefix pd.1.path pfx then
          emittedEntries (initVolLockInfo pd) (matchingOps t relTime pd)
        else [] := by
  unfold listLocksInfo
  congr 1
  funext pd
  by_cases hc : pd.1.volume = bucket ∧ hasPrefix pd.1.path pfx
  · rw [if_pos hc, if_pos hc, listLocksLoop_eq]
    simp [emittedEntries, matchingOps, initVolLockInfo, List.map_take]
  · rw [if_neg hc, if_neg hc]

theorem listLocksInfo_lastDetails (st : NsLockMapState) (t : Int) (bucket pfx : String)
    (relTime : Int) :
    ((listLocksInfo st t bucket pfx relTime).map fun v =>
        v.LockDetailsOnObject.getLast?) =
      st.debugLockMap.flatMap fun pd =>
        if pd.1.volume = bucket ∧ hasPrefix pd.1.path pfx then
          (matchingOps t relTime pd).map some
        else [] := by
  unfold listLocksInfo
  rw [List.map_flatMap]
  congr 1
  funext pd
  by_cases hc : pd.1.volume = bucket ∧ hasPrefix pd.1.path pfx
  · rw [if_pos hc, if_pos hc, listLocksLoop_lastDetails]
    simp [matchingOps, List.map_map, Function.comp]
  · rw [if_neg hc, if_neg hc]
    rfl

theorem makeAdminPeers_foldl (cred : Credential) (ssl : Bool) (svcEndpoint : String)
    (eps : List EndpointURL) :
    ∀ acc : List AdminPeer × List String,
      acc.2 = acc.1.map (fun p => p.addr) →
      (eps.foldl (makeAdminPeersStep cred ssl svcEndpoint) acc).2
        = ((eps.foldl (makeAdminPeersStep cred ssl svcEndpoint) acc).1.map fun p => p.addr) ∧
      (∃ ext, (eps.foldl (makeAdminPeersStep cred ssl svcEndpoint) acc).1 = acc.1 ++ ext) ∧
      ((acc.1.map fun p => p.addr).Nodup →
        ((eps.foldl (makeAdminPeersStep cred ssl svcEndpoint) acc).1.map fun p => p.addr).Nodup) ∧
      (∀ hst,
        (hst ∈ (eps.foldl (makeAdminPeersStep cred ssl svcEndpoint) acc).1.map fun p => p.addr) ↔
          (hst ∈ acc.1.map fun p => p.addr) ∨
            (hst ≠ "" ∧ hst ∈ eps.map fun e => e.host)) := by
  induction eps with
  | nil =>
    intro acc hinv
    exact ⟨hinv, ⟨[], by simp⟩, fun h => h, fun hst => by simp⟩
  | cons ep rest ih =>
    intro acc hinv
    rw [List.foldl_cons]
    by_cases h1 : ep.host = ""
    · have hstep : makeAdminPeersStep cred ssl svcEndpoint acc ep = acc := by
        simp [makeAdminPeersStep, h1]
      rw [hstep]
      obtain ⟨i1, i2, i3, i4⟩ := ih acc hinv
      refine ⟨i1, i2, i3, fun hst => ?_⟩
      rw [i4 hst]
      constructor
      · rintro (ha | ⟨hne, hr⟩)
        · exact Or.inl ha
        · exact Or.inr ⟨hne, by simp [hr]⟩
      · rintro (ha | ⟨hne, hm⟩)
        · exact Or.inl ha
        · simp only [List.map_cons, List.mem_cons] at hm
          rcases hm with he | hr
          · exact absurd (he.trans h1) hne
          · exact Or.inr ⟨hne, hr⟩
    · by_cases h2 : ep.host ∈ acc.2
      · have hstep : makeAdminPeersStep cred ssl svcEndpoint acc ep = acc := by
          simp [makeAdminPeersStep, h1, h2]
        rw [hstep]
        obtain ⟨i1, i2, i3, i4⟩ := ih acc hinv
        have hmem : ep.host ∈ acc.1.map fun p => p.addr := by rw [← hinv]; exact h2
        refine ⟨i1, i2, i3, fun hst => ?_⟩
        rw [i4 hst]
        constructor
        · rintro (ha | ⟨hne, hr⟩)
          · exact Or.inl ha
          · exact Or.inr ⟨hne, by simp [hr]⟩
        · rintro (ha | ⟨hne, hm⟩)
          · exact Or.inl ha
          · simp only [List.map_cons, List.mem_cons] at hm
            rcases hm with he | hr
            · exact Or.inl (he ▸ hmem)
            · exact Or.inr ⟨hne, hr⟩
      · have hstep : makeAdminPeersStep cred ssl svcEndpoint acc ep =
            (acc.1 ++ [{ addr := ep.host
                         cmdRunner := AdminCmdRunner.remoteAdminClient
                           (makeAuthConfig cred ssl svcEndpoint ep.host) }],
             acc.2 ++ [ep.host]) := by
          simp [makeAdminPeersStep, h1, h2]
        rw [hstep]
        have hinv' : acc.2 ++ [ep.host] =
            ((acc.1 ++ ([{ addr := ep.host
                           cmdRunner := AdminCmdRunner.remoteAdminClient
                             (makeAuthConfig cred ssl svcEndpoint ep.host) }] :
                List AdminPeer)).map
              fun p => p.addr) := by
          simp [hinv]
        obtain ⟨i1, ⟨ext, hext⟩, i3, i4⟩ :=
          ih (acc.1 ++ ([{ addr := ep.host
                           cmdRunner := AdminCmdRunner.remoteAdminClient
                             (makeAuthConfig cred ssl svcEndpoint ep.host) }] :
                List AdminPeer),
              acc.2 ++ [ep.host]) hinv'
        have hnotin : ep.host ∉ acc.1.map fun p => p.addr := by rw [← hinv]; exact h2
        refine ⟨i1, ?_, ?_, fun hst => ?_⟩
        · refine ⟨([{ addr := ep.host
                      cmdRunner := AdminCmdRunner.remoteAdminClient
                        (makeAuthConfig cred ssl svcEndpoint ep.host) }] :
              List AdminPeer) ++ ext, ?_⟩
          rw [hext]
          exact List.append_assoc _ _ _
        · intro hnd
          apply i3
          simp [List.nodup_append, hnd, hnotin]
        · rw [i4 hst]
          constructor
          · rintro (ha | ⟨hne, hr⟩)
            · simp only [List.map_append, List.map_cons, List.map_nil,
                List.mem_append, List.mem_cons, List.not_mem_nil, or_false] at ha
              rcases ha with ha | he
              · exact Or.inl ha
              · exact Or.inr ⟨by rw [he]; exact h1, by simp [he]⟩
            · exact Or.inr ⟨hne, by simp [hr]⟩
          · rintro (ha | ⟨hne, hm⟩)
            · exact Or.inl (by simp [ha])
            · simp only [List.map_cons, List.mem_cons] at hm
              rcases hm with he | hr
              · exact Or.inl (by simp [he])
              · exact Or.inr ⟨hne, hr⟩

/-- C3: makeAdminPeers puts the local peer with the local runner at
position 0, lists every distinct non-empty host exactly once (duplicate
hosts collapse, empty hosts are skipped, seen hosts include the local
address), and no remote peer shares the local peer's address. -/
theorem makeAdminPeers_registry (ga : String) (cred : Credential) (ssl : Bool)
    (svcEndpoint : String) (eps : List EndpointURL) :
    (makeAdminPeers ga cred ssl svcEndpoint eps).head?
      = some { addr := ga, cmdRunner := AdminCmdRunner.localAdminClient } ∧
    ((makeAdminPeers ga cred ssl svcEndpoint eps).map fun p => p.addr).Nodup ∧
    (∀ hst, (hst ∈ (makeAdminPeers ga cred ssl svcEndpoint eps).map fun p => p.addr) ↔
      hst = ga ∨ (hst ≠ "" ∧ hst ∈ eps.map fun e => e.host)) ∧
    (∀ p ∈ (makeAdminPeers ga cred ssl svcEndpoint eps).tail, p.addr ≠ ga) := by
  have hinv : ([ga] : List String)
      = (([{ addr := ga, cmdRunner := AdminCmdRunner.localAdminClient }] :
          List AdminPeer).map fun p => p.addr) := by simp
  obtain ⟨_, ⟨ext, hext⟩, i3, i4⟩ := makeAdminPeers_foldl cred ssl svcEndpoint eps
    ([{ addr := ga, cmdRunner := AdminCmdRunner.localAdminClient }], [ga]) hinv
  have hres : makeAdminPeers ga cred ssl svcEndpoint eps =
      { addr := ga, cmdRunner := AdminCmdRunner.localAdminClient } :: ext := by
    unfold makeAdminPeers
    rw [hext]
    rfl
  have hnd : ((makeAdminPeers ga cred ssl svcEndpoint eps).map fun p => p.addr).Nodup := by
    unfold makeAdminPeers
    exact i3 (by simp)
  refine ⟨by rw [hres]; rfl, hnd, fun hst => ?_, ?_⟩
  · have h4 := i4 hst
    unfold makeAdminPeers
    rw [h4]
    simp
  · intro p hp
    rw [hres] at hnd
    simp only [List.map_cons, List.nodup_cons] at hnd
    intro hpa
    apply hnd.1
    rw [← hpa]
    apply List.mem_map_of_mem
    rw [hres] at hp
    exact hp

/-- Witness for C3: with duplicate hosts, an empty host and a duplicate
of the local address in the endpoint list, host "a" appears among the
registry addresses. -/
theorem makeAdminPeers_registry_witness :
    "a" ∈ ((makeAdminPeers "ga" { AccessKey := "ak", SecretKey := "sk" } false "ep"
      [{ host := "a" }, { host := "" }, { host := "a" }, { host := "ga" }]).map
        fun p => p.addr) :=
  ((makeAdminPeers_registry "ga" { AccessKey := "ak", SecretKey := "sk" } false "ep"
      [{ host := "a" }, { host := "" }, { host := "a" }, { host := "ga" }]).2.2.1
    "a").mpr (Or.inr ⟨by decide, by decide⟩)

theorem hasPrefix_empty (s : String) : hasPrefix s "" = true := by
  show ("" : String).toList.isPrefixOf s.toList = true
  have h : ("" : String).toList = [] := by decide
  rw [h]
  exact List.isPrefixOf_nil_left

theorem flatMap_congr_mem {α β : Type} (l : List α) (f g : α → List β)
    (h : ∀ a ∈ l, f a = g a) : l.flatMap f = l.flatMap g := by
  induction l with
  | nil => rfl
  | cons a rest ih =>
    simp only [List.flatMap_cons, h a (List.mem_cons_self a rest)]
    rw [ih fun a ha => h a (List.mem_cons_of_mem _ ha)]

/-- C2 (amended): listLocksInfo emits one VolumeLockInfo entry per
matching operation record — an object with k matching records
contributes exactly k entries, each carrying that object's aggregate
counters; but the details accumulate: the i-th entry carries the first
i matching records' details (ending with that operation's), not exactly
one detail record. -/
theorem listLocksInfo_per_record_emission (st : NsLockMapState) (t : Int)
    (bucket pfx : String) (relTime : Int) :
    listLocksInfo st t bucket pfx relTime =
      st.debugLockMap.flatMap fun pd =>
        if pd.1.volume = bucket ∧ hasPrefix pd.1.path pfx then
          emittedEntries (initVolLockInfo pd) (matchingOps t relTime pd)
        else [] :=
  listLocksInfo_char st t bucket pfx relTime

/-- Counterexample to C2 as stated: one object of bucket "b" holds two
matching operation records; two entries are emitted, but the second
carries both detail records rather than exactly one. -/
theorem listLocksInfo_single_detail_counterexample :
    ¬ ∀ v ∈ listLocksInfo exLockState 100 "b" "" 0,
        v.LockDetailsOnObject.length = 1 := by
  decide

/-- C4: an operation record of entry (volume, path) contributes an
emitted entry exactly when volume is the requested bucket, path starts
with the requested prefix and its elapsed time is at least relTime (the
record triggering an entry is the last of that entry's details); with
an empty prefix and zero minimum age, every tracked record of the
bucket contributes, provided no record's timestamp lies in the future
of the shared sample. -/
theorem listLocksInfo_filter_semantics (st : NsLockMapState) (t : Int)
    (bucket pfx : String) (relTime : Int) :
    (((listLocksInfo st t bucket pfx relTime).map fun v =>
        v.LockDetailsOnObject.getLast?) =
      st.debugLockMap.flatMap fun pd =>
        if pd.1.volume = bucket ∧ hasPrefix pd.1.path pfx then
          ((pd.2.lockInfo.filter fun ol => relTime ≤ t - ol.2.since).map fun ol =>
            some (mkOpsLockState ol.1 ol.2 (t - ol.2.since)))
        else []) ∧
    ((∀ pd ∈ st.debugLockMap, ∀ ol ∈ pd.2.lockInfo, ol.2.since ≤ t) →
      ((listLocksInfo st t bucket "" 0).map fun v =>
          v.LockDetailsOnObject.getLast?) =
        st.debugLockMap.flatMap fun pd =>
          if pd.1.volume = bucket then
            pd.2.lockInfo.map fun ol =>
              some (mkOpsLockState ol.1 ol.2 (t - ol.2.since))
          else []) := by
  constructor
  · rw [listLocksInfo_lastDetails]
    apply flatMap_congr_mem
    intro pd _
    by_cases hc : pd.1.volume = bucket ∧ hasPrefix pd.1.path pfx
    · rw [if_pos hc, if_pos hc]
      simp [matchingOps, List.map_map, Function.comp]
    · rw [if_neg hc, if_neg hc]
  · intro h
    rw [listLocksInfo_lastDetails]
    apply flatMap_congr_mem
    intro pd hpd
    have hfull : (pd.2.lockInfo.filter fun ol => (0 : Int) ≤ t - ol.2.since)
        = pd.2.lockInfo := by
      apply List.filter_eq_self.mpr
      intro ol hol
      simpa using Int.sub_nonneg.mpr (h pd hpd ol hol)
    by_cases hc : pd.1.volume = bucket
    · rw [if_pos (And.intro hc (hasPrefix_empty pd.1.path)), if_pos hc]
      simp only [matchingOps]
      rw [hfull]
      simp [List.map_map, Function.comp]
    · rw [if_neg (by simp [hc]), if_neg hc]

/-- Witness for C4: with all records in the past of the sample, the
query for bucket "b", empty prefix and zero age reports a trigger for
each of the two tracked records. -/
theorem listLocksInfo_filter_semantics_witness :
    ((listLocksInfo exLockState 100 "b" "" 0).map fun v =>
        v.LockDetailsOnObject.getLast?) =
      [some (mkOpsLockState "op1" exRec1 90), some (mkOpsLockState "op2" exRec2 80)] := by
  rw [(listLocksInfo_filter_semantics exLockState 100 "b" "" 0).2 (by decide)]
  decide

/-- C7: within a single call to getSystemLockState, and within a single
call to listLocksInfo, every emitted record's Duration is derived from
one shared timestamp sample t, so Since + Duration is the same value t
for all records of the call. -/
theorem shared_timestamp_sample (st : NsLockMapState) (t : Int) (bucket pfx : String)
    (relTime : Int) :
    (∀ v ∈ (getSystemLockState st t).LocksInfoPerObject,
      ∀ o ∈ v.LockDetailsOnObject, o.Since + o.Duration = t) ∧
    (∀ v ∈ listLocksInfo st t bucket pfx relTime,
      ∀ o ∈ v.LockDetailsOnObject, o.Since + o.Duration = t) ∧
    (∀ v₁ ∈ (getSystemLockState st t).LocksInfoPerObject,
      ∀ o₁ ∈ v₁.LockDetailsOnObject,
        ∀ v₂ ∈ (getSystemLockState st t).LocksInfoPerObject,
          ∀ o₂ ∈ v₂.LockDetailsOnObject,
            o₁.Since + o₁.Duration = o₂.Since + o₂.Duration) ∧
    (∀ v₁ ∈ listLocksInfo st t bucket pfx relTime,
      ∀ o₁ ∈ v₁.LockDetailsOnObject,
        ∀ v₂ ∈ listLocksInfo st t bucket pfx relTime,
          ∀ o₂ ∈ v₂.LockDetailsOnObject,
            o₁.Since + o₁.Duration = o₂.Since + o₂.Duration) := by
  have hsys : ∀ v ∈ (getSystemLockState st t).LocksInfoPerObject,
      ∀ o ∈ v.LockDetailsOnObject, o.Since + o.Duration = t := by
    intro v hv o ho
    simp only [getSystemLockState, List.mem_map] at hv
    obtain ⟨pd, _, hpd⟩ := hv
    subst hpd
    simp only [List.mem_map] at ho
    obtain ⟨ol, _, hol⟩ := ho
    subst hol
    simp [mkOpsLockState]
  have hlist : ∀ v ∈ listLocksInfo st t bucket pfx relTime,
      ∀ o ∈ v.LockDetailsOnObject, o.Since + o.Duration = t := by
    intro v hv o ho
    rw [listLocksInfo_char] at hv
    simp only [List.mem_flatMap] at hv
    obtain ⟨pd, _, hvin⟩ := hv
    by_cases hc : pd.1.volume = bucket ∧ hasPrefix pd.1.path pfx
    · rw [if_pos hc] at hvin
      simp only [emittedEntries, List.mem_map, List.mem_range] at hvin
      obtain ⟨i, _, hvi⟩ := hvin
      subst hvi
      simp only at ho
      have hops : o ∈ matchingOps t relTime pd := List.take_subset _ _ ho
      simp only [matchingOps, List.mem_map] at hops
      obtain ⟨ol, _, holx⟩ := hops
      subst holx
      simp [mkOpsLockState]
    · rw [if_neg hc] at hvin
      simp at hvin
  refine ⟨hsys, hlist, ?_, ?_⟩
  · intro v₁ h₁ o₁ ho₁ v₂ h₂ o₂ ho₂
    rw [hsys v₁ h₁ o₁ ho₁, hsys v₂ h₂ o₂ ho₂]
  · intro v₁ h₁ o₁ ho₁ v₂ h₂ o₂ ho₂
    rw [hlist v₁ h₁ o₁ ho₁, hlist v₂ h₂ o₂ ho₂]

/-- Witness for C7: in the snapshot of exLockState at t = 100, the
record held since 10 has duration 90; Since + Duration recovers the
shared sample 100. -/
theorem shared_timestamp_sample_witness :
    (mkOpsLockState "op1" exRec1 90).Since + (mkOpsLockState "op1" exRec1 90).Duration
      = 100 :=
  (shared_timestamp_sample exLockState 100 "b" "" 0).1 exSysVol (by decide)
    (mkOpsLockState "op1" exRec1 90) (by decide)

theorem countErr_cons {Err : Type} [DecidableEq Err] (oe : Option Err)
    (errs : List (Option Err)) (e : Err) :
    countErr (oe :: errs) e = countErr errs e + (if oe = some e then 1 else 0) := by
  by_cases h : oe = some e
  · simp [countErr, List.filter_cons, h]
  · simp [countErr, List.filter_cons, h]

theorem countErr_pos {Err : Type} [DecidableEq Err] {errs : List (Option Err)} {e : Err}
    (h : some e ∈ errs) : 1 ≤ countErr errs e :=
  List.length_pos_of_mem (List.mem_filter.mpr ⟨h, by simp⟩)

theorem countErr_mem {Err : Type} [DecidableEq Err] {errs : List (Option Err)} {e : Err}
    (h : 1 ≤ countErr errs e) : some e ∈ errs := by
  obtain ⟨x, hx⟩ := List.exists_mem_of_length_pos h
  obtain ⟨hxm, hxe⟩ := List.mem_filter.mp hx
  have : x = some e := by simpa using hxe
  exact this ▸ hxm

theorem countErr_pair_le {Err : Type} [DecidableEq Err] {e e' : Err} (hne : e ≠ e') :
    ∀ errs : List (Option Err), countErr errs e + countErr errs e' ≤ errs.length
  | [] => by simp [countErr]
  | oe :: rest => by
    have ih := countErr_pair_le hne rest
    rw [countErr_cons, countErr_cons, List.length_cons]
    by_cases h1 : oe = some e
    · have h2 : ¬ oe = some e' := fun hc => hne (Option.some.inj (h1.symm.trans hc))
      rw [if_pos h1, if_neg h2]
      omega
    · by_cases h2 : oe = some e'
      · rw [if_neg h1, if_pos h2]
        omega
      · rw [if_neg h1, if_neg h2]
        omega

theorem reduceStep_fst_le {Err : Type} [DecidableEq Err] (errs : List (Option Err)) :
    ∀ (l : List Err) (acc : Nat × Option Err),
      acc.1 ≤ (l.foldl
        (fun acc e => if acc.1 < countErr errs e then (countErr errs e, some e) else acc)
        acc).1
  | [], acc => le_refl _
  | e :: rest, acc => by
    rw [List.foldl_cons]
    refine le_trans ?_ (reduceStep_fst_le errs rest _)
    by_cases h : acc.1 < countErr errs e
    · rw [if_pos h]
      exact le_of_lt h
    · rw [if_neg h]

theorem reduceStep_counts {Err : Type} [DecidableEq Err] (errs : List (Option Err)) :
    ∀ (l : List Err) (acc : Nat × Option Err) (e : Err), e ∈ l →
      countErr errs e ≤ (l.foldl
        (fun acc e => if acc.1 < countErr errs e then (countErr errs e, some e) else acc)
        acc).1
  | e' :: rest, acc, e, hmem => by
    rw [List.foldl_cons]
    rcases List.mem_cons.mp hmem with he | hr
    · subst he
      refine le_trans ?_ (reduceStep_fst_le errs rest _)
      by_cases h : acc.1 < countErr errs e
      · rw [if_pos h]
      · rw [if_neg h]
        exact le_of_not_lt h
    · exact reduceStep_counts errs rest _ e hr

theorem reduceStep_result {Err : Type} [DecidableEq Err] (errs : List (Option Err)) :
    ∀ (l : List Err) (acc : Nat × Option Err),
      (l.foldl
        (fun acc e => if acc.1 < countErr errs e then (countErr errs e, some e) else acc)
        acc) = acc ∨
      ∃ e, e ∈ l ∧
        (l.foldl
          (fun acc e => if acc.1 < countErr errs e then (countErr errs e, some e) else acc)
          acc) = (countErr errs e, some e)
  | [], acc => Or.inl rfl
  | e' :: rest, acc => by
    rw [List.foldl_cons]
    by_cases h : acc.1 < countErr errs e'
    · rw [if_pos h]
      rcases reduceStep_result errs rest (countErr errs e', some e') with hr | ⟨e, hm, hr⟩
      · exact Or.inr ⟨e', List.mem_cons_self _ _, hr⟩
      · exact Or.inr ⟨e, List.mem_cons_of_mem _ hm, hr⟩
    · rw [if_neg h]
      rcases reduceStep_result errs rest acc with hr | ⟨e, hm, hr⟩
      · exact Or.inl hr
      · exact Or.inr ⟨e, List.mem_cons_of_mem _ hm, hr⟩

theorem reduceErrs_cases {Err : Type} [DecidableEq Err] (errs : List (Option Err)) :
    reduceErrs errs = (0, none) ∨
      ∃ e, some e ∈ errs ∧ reduceErrs errs = (countErr errs e, some e) := by
  rcases reduceStep_result errs (errs.filterMap id) (0, none) with hr | ⟨e, hm, hr⟩
  · exact Or.inl hr
  · refine Or.inr ⟨e, ?_, hr⟩
    obtain ⟨oe, hoe, hoee⟩ := List.mem_filterMap.mp hm
    exact (show oe = some e from hoee) ▸ hoe

theorem reduceErrs_max {Err : Type} [DecidableEq Err] (errs : List (Option Err)) (e : Err)
    (h : some e ∈ errs) : countErr errs e ≤ (reduceErrs errs).1 :=
  reduceStep_counts errs (errs.filterMap id) (0, none) e
    (List.mem_filterMap.mpr ⟨some e, h, rfl⟩)

theorem flattenGroups_insert (k : NsParam) (v : VolumeLockInfo) :
    ∀ m : List (NsParam × List VolumeLockInfo),
      (flattenGroups (insertParamLock m k v)).Perm (v :: flattenGroups m)
  | [] => by simp [insertParamLock, flattenGroups]
  | kv :: rest => by
    by_cases h : kv.1 = k
    · simp only [insertParamLock, if_pos h, flattenGroups, List.flatMap_cons]
      rw [List.append_assoc]
      exact List.perm_middle
    · simp only [insertParamLock, if_neg h, flattenGroups, List.flatMap_cons]
      refine List.Perm.trans ?_ List.perm_middle
      exact (flattenGroups_insert k v rest).append_left kv.2

theorem flattenGroups_foldl :
    ∀ (locks : List VolumeLockInfo) (m : List (NsParam × List VolumeLockInfo)),
      (flattenGroups (locks.foldl
        (fun m li => insertParamLock m { volume := li.Bucket, path := li.Object } li)
        m)).Perm (flattenGroups m ++ locks)
  | [], m => by simp
  | li :: rest, m => by
    rw [List.foldl_cons]
    refine (flattenGroups_foldl rest _).trans ?_
    refine List.Perm.trans ?_ List.perm_middle.symm
    exact ((flattenGroups_insert _ li m).append_right rest)

theorem flattenGroups_group_perm (locks : List VolumeLockInfo) :
    (flattenGroups (groupLockInfos locks)).Perm locks := by
  have h := flattenGroups_foldl locks []
  simpa [groupLockInfos, flattenGroups] using h

/-- C1: listPeerLocksInfo returns the most frequent per-peer error when
its count reaches the majority threshold len(peers)/2 + 1; returns the
distinguished InsufficientReadQuorum condition when errors occurred but
none reaches the threshold; and when no peer errored returns a merged
result that is a permutation of all peers' entries — never a partial
list. -/
theorem listPeerLocksInfo_quorum {Err : Type} [DecidableEq Err]
    (outcomes : List (Except Err (List VolumeLockInfo))) (hne : outcomes ≠ []) :
    (∀ e : Err, outcomes.length / 2 + 1 ≤ countErr (peerErrs outcomes) e →
      listPeerLocksInfo outcomes = Except.error (AggError.peerError e)) ∧
    ((∃ e : Err, some e ∈ peerErrs outcomes) →
      (∀ e : Err, countErr (peerErrs outcomes) e < outcomes.length / 2 + 1) →
      listPeerLocksInfo outcomes = Except.error AggError.insufficientReadQuorum) ∧
    ((∀ o ∈ outcomes, ∃ l, o = Except.ok l) →
      ∃ merged, listPeerLocksInfo outcomes = Except.ok merged ∧
        merged.Perm (peerLocks outcomes).flatten) := by
  have hlen : (peerErrs outcomes).length = outcomes.length := by simp [peerErrs]
  refine ⟨?_, ?_, ?_⟩
  · intro e hth
    have hmem : some e ∈ peerErrs outcomes := countErr_mem (by omega)
    rcases reduceErrs_cases (peerErrs outcomes) with hr | ⟨e'', hmem'', hr⟩
    · have hmax := reduceErrs_max (peerErrs outcomes) e hmem
      rw [hr] at hmax
      omega
    · have hmax := reduceErrs_max (peerErrs outcomes) e hmem
      rw [hr] at hmax
      have hth'' : outcomes.length / 2 + 1 ≤ countErr (peerErrs outcomes) e'' := by omega
      have hee : e'' = e := by
        by_contra hneq
        have hp := countErr_pair_le hneq (peerErrs outcomes)
        rw [hlen] at hp
        omega
      subst hee
      simp only [listPeerLocksInfo, hr]
      rw [if_pos hth'']
  · rintro ⟨e, hmem⟩ hlt
    rcases reduceErrs_cases (peerErrs outcomes) with hr | ⟨e'', _, hr⟩
    · have hmax := reduceErrs_max (peerErrs outcomes) e hmem
      have hpos := countErr_pos hmem
      rw [hr] at hmax
      omega
    · simp only [listPeerLocksInfo, hr]
      rw [if_neg (not_le.mpr (hlt e''))]
  · intro hok
    have hnil : (peerErrs outcomes).filterMap id = [] := by
      rw [List.filterMap_eq_nil_iff]
      intro oe hoe
      simp only [peerErrs, List.mem_map] at hoe
      obtain ⟨o, ho, hoe⟩ := hoe
      obtain ⟨l, hl⟩ := hok o ho
      subst hl
      exact hoe.symm
    have hr : reduceErrs (peerErrs outcomes) = (0, none) := by
      unfold reduceErrs
      rw [hnil]
      rfl
    refine ⟨flattenGroups (groupLockInfos (peerLocks outcomes).flatten), ?_,
      flattenGroups_group_perm _⟩
    simp only [listPeerLocksInfo, hr]

/-- Witness for C1: with three peers of which two fail with the same
error 7, the threshold 3/2 + 1 = 2 is met and error 7 is propagated. -/
theorem listPeerLocksInfo_quorum_witness :
    listPeerLocksInfo
        [Except.error (7 : Nat), Except.error 7, Except.ok ([] : List VolumeLockInfo)]
      = Except.error (AggError.peerError 7) :=
  (listPeerLocksInfo_quorum
      [Except.error (7 : Nat), Except.error 7, Except.ok ([] : List VolumeLockInfo)]
      (List.cons_ne_nil _ _)).1 7 (by decide)

/-- C5: when no peer errors, the merge step returns a permutation of
the concatenation of all peers' VolumeLockInfo entries — every entry of
every peer appears unmodified, and nothing else. -/
theorem listPeerLocksInfo_merge {Err : Type} [DecidableEq Err]
    (lists : List (List VolumeLockInfo)) (hne : lists ≠ []) :
    ∃ merged,
      listPeerLocksInfo (lists.map (@Except.ok Err (List VolumeLockInfo)))
          = Except.ok merged ∧
        merged.Perm lists.flatten := by
  have hnil : (peerErrs (lists.map (@Except.ok Err (List VolumeLockInfo)))).filterMap id
      = [] := by
    simp [peerErrs, List.map_map, Function.comp, List.filterMap_eq_nil_iff]
  have hr : reduceErrs (peerErrs (lists.map (@Except.ok Err (List VolumeLockInfo))))
      = (0, none) := by
    unfold reduceErrs
    rw [hnil]
    rfl
  have hlocks : peerLocks (lists.map (@Except.ok Err (List VolumeLockInfo))) = lists := by
    simp only [peerLocks, List.map_map]
    exact List.map_id lists
  refine ⟨flattenGroups (groupLockInfos lists.flatten), ?_, flattenGroups_group_perm _⟩
  simp only [listPeerLocksInfo, hr]
  rw [hlocks]

/-- Witness for C5: two peers each reporting one entry; the aggregate
carries both, in some order. -/
theorem listPeerLocksInfo_merge_witness :
    ∃ merged,
      listPeerLocksInfo
          (([[exVolA], [exVolB]] : List (List VolumeLockInfo)).map
            (@Except.ok Nat (List VolumeLockInfo)))
          = Except.ok merged ∧
        merged.Perm ([[exVolA], [exVolB]] : List (List VolumeLockInfo)).flatten :=
  listPeerLocksInfo_merge [[exVolA], [exVolB]] (List.cons_ne_nil _ _)

theorem removeUploadIDFromList_eq_erase (uploadID : String) :
    ∀ l : List String, removeUploadIDFromList l uploadID = l.erase uploadID
  | [] => rfl
  | u :: rest => by
    by_cases h : u = uploadID
    · subst h
      simp [removeUploadIDFromList, List.erase_cons]
    · simp [removeUploadIDFromList, h, List.erase_cons,
        removeUploadIDFromList_eq_erase uploadID rest]

/-- C8: getSystemLockState copies the lock table's three running
counters verbatim into TotalLocks, TotalAcquiredLocks and
TotalBlockedLocks; two calls on the same state, at any two timestamps,
return identical counter values. -/
theorem getSystemLockState_counters (st : NsLockMapState) (t t' : Int) :
    (getSystemLockState st t).TotalLocks = st.counters.total ∧
    (getSystemLockState st t).TotalAcquiredLocks = st.counters.granted ∧
    (getSystemLockState st t).TotalBlockedLocks = st.counters.blocked ∧
    (getSystemLockState st t).TotalLocks = (getSystemLockState st t').TotalLocks ∧
    (getSystemLockState st t).TotalAcquiredLocks
      = (getSystemLockState st t').TotalAcquiredLocks ∧
    (getSystemLockState st t).TotalBlockedLocks
      = (getSystemLockState st t').TotalBlockedLocks :=
  ⟨rfl, rfl, rfl, rfl, rfl, rfl⟩

/-- C9: isMultipartUpload and isUploadIDExists return a plain boolean
that is true exactly when the stat succeeds; every stat failure,
file-not-found or any other error, yields false. -/
theorem multipart_checks_swallow_errors (stat : String → Option StatError)
    (fsPath bucket pfx object uploadID : String) :
    (isMultipartUpload stat fsPath bucket pfx
       = (stat (pathJoin [fsPath, bucket, pfx, uploadsJSONFile])).isNone) ∧
    (isUploadIDExists stat fsPath bucket object uploadID
       = (stat (pathJoin [fsPath, minioMetaMultipartBucket,
            pathJoin [bucket, object, uploadID], fsMetaJSONFile])).isNone) ∧
    (∀ e, stat (pathJoin [fsPath, bucket, pfx, uploadsJSONFile]) = some e →
      isMultipartUpload stat fsPath bucket pfx = false) ∧
    (∀ e, stat (pathJoin [fsPath, minioMetaMultipartBucket,
        pathJoin [bucket, object, uploadID], fsMetaJSONFile]) = some e →
      isUploadIDExists stat fsPath bucket object uploadID = false) := by
  refine ⟨?_, ?_, ?_, ?_⟩
  · cases h : stat (pathJoin [fsPath, bucket, pfx, uploadsJSONFile]) <;>
      simp [isMultipartUpload, h, ite_self]
  · cases h : stat (pathJoin [fsPath, minioMetaMultipartBucket,
        pathJoin [bucket, object, uploadID], fsMetaJSONFile]) <;>
      simp [isUploadIDExists, h, ite_self]
  · intro e he
    simp [isMultipartUpload, he, ite_self]
  · intro e he
    simp [isUploadIDExists, he, ite_self]

/-- Witness for C9: a stat failing with an unexpected (non
file-not-found) error makes isMultipartUpload return false. -/
theorem multipart_checks_swallow_errors_witness :
    isMultipartUpload (fun _ => some (StatError.otherError "permission denied"))
      "/fs" "bkt" "obj" = false :=
  (multipart_checks_swallow_errors
    (fun _ => some (StatError.otherError "permission denied"))
    "/fs" "bkt" "obj" "o" "u").2.2.1 (StatError.otherError "permission denied") rfl

/-- C10: removeUploadID propagates a failed ledger read unchanged with
no file operation; otherwise it removes the upload ID and either
deletes the emptied ledger file without writing it back, or writes the
updated list back. -/
theorem removeUploadID_flow (readRes : Except StatError (List String)) (uploadID : String)
    (deleteErr writeErr : Option StatError) :
    (∀ e, readRes = Except.error e →
      removeUploadID readRes uploadID deleteErr writeErr = (some e, none)) ∧
    (∀ l, readRes = Except.ok l →
      (removeUploadIDFromList l uploadID = [] →
        removeUploadID readRes uploadID deleteErr writeErr
          = (deleteErr, some LedgerFileOp.deleteFile)) ∧
      (removeUploadIDFromList l uploadID ≠ [] →
        removeUploadID readRes uploadID deleteErr writeErr
          = (writeErr, some (LedgerFileOp.writeFile (removeUploadIDFromList l uploadID))))) ∧
    (∀ l : List String, l.Nodup → uploadID ∉ removeUploadIDFromList l uploadID) := by
  refine ⟨?_, ?_, ?_⟩
  · intro e he
    subst he
    rfl
  · intro l hl
    subst hl
    constructor
    · intro h
      simp [removeUploadID, h]
    · intro h
      simp [removeUploadID, List.isEmpty_iff, h]
  · intro l hnd
    rw [removeUploadIDFromList_eq_erase]
    exact hnd.not_mem_erase

/-- Witness for C10: removing one of two ledger entries writes the
updated list back. -/
theorem removeUploadID_flow_witness :
    removeUploadID (Except.ok ["a", "b"]) "a" none none
      = (none, some (LedgerFileOp.writeFile ["b"])) := by
  have h := (removeUploadID_flow (Except.ok ["a", "b"]) "a" none none).2.1
    ["a", "b"] rfl
  simpa [removeUploadIDFromList] using h.2 (by decide)

/-- C6: sendServiceCmd returns no value; the per-peer errors are
captured position-aligned with the registry but never surfaced. -/
theorem sendServiceCmd_swallows_errors {Err : Type}
    (stopErr restartErr : AdminPeer → Option Err) (cps : List AdminPeer)
    (cmd : ServiceSignal) (hne : cps ≠ []) :
    sendServiceCmd stopErr restartErr cps cmd = () ∧
    sendServiceCmdErrs stopErr restartErr cps cmd
      = cps.map fun p => invokeServiceCmd stopErr restartErr p cmd := by
  cases cps with
  | nil => exact absurd rfl hne
  | cons c0 rest => exact ⟨rfl, rfl⟩

/-- Witness for C6: with one peer whose Stop fails, sendServiceCmd
still returns unit and the error stays in the slot collection. -/
theorem sendServiceCmd_swallows_errors_witness :
    @sendServiceCmd String (fun _ => some "node unreachable") (fun _ => none)
        [exPeer] ServiceSignal.serviceStop = () ∧
    @sendServiceCmdErrs String (fun _ => some "node unreachable") (fun _ => none)
        [exPeer] ServiceSignal.serviceStop = [some "node unreachable"] :=
  @sendServiceCmd_swallows_errors String (fun _ => some "node unreachable") (fun _ => none)
    [exPeer] ServiceSignal.serviceStop (List.cons_ne_nil _ _)

end Minio
